import Mathlib

/-
Verification of the grayscale quantization and dithering engine of
leptonica's grayquant.c (repository boredland/pdfsizeopt-jbig2).

The definitions below are a shallow embedding of the C code:
rasters become records carrying a pixel function, the 256-entry
quantization tables become functions on gray values, the imperative
loops become folds or structural recursions, and fallible C functions
(returning NULL / an error int) become Option-valued functions.
Machine bytes are read through `% 256` exactly where the C uses
GET_DATA_BYTE, and writes truncate to a byte exactly where the C uses
SET_DATA_BYTE.

Functions living in files of the repository that are compiled by c.sh
but whose source is not available here (grayquantlow.c, colormap.c,
pix1.c) are modelled from the specification's description and are
marked `Modelled from the spec:` in their doc comment.
-/

/-- A raster image: width, height, bit depth, a pixel function
(row, column ↦ stored sample), and an optional grayscale colormap
(list of gray values, index order = insertion order). -/
structure Raster where
  w : ℕ
  h : ℕ
  depth : ℕ
  pix : ℕ → ℕ → ℕ
  cmap : Option (List ℕ)

/-! ### Quantization tables for linear thresholds (makeGrayQuantIndexTable,
makeGrayQuantTargetTable, grayquant.c lines 973-1049) -/

/-- The representative threshold computed in the inner loop of both
table builders: `thresh = 255 * (2 * j + 1) / (2 * nlevels - 2)`
(C integer division). -/
def quantThresh (nlevels j : ℕ) : ℕ := 255 * (2 * j + 1) / (2 * nlevels - 2)

/-- The inner loop `for (j = 0; j < nlevels; j++) { if (i <= thresh) break; }`
of both table builders, searching upward from `j`; `none` means the loop
ran to completion without the `break` firing (so in the C the calloc'd
default 0 would be kept).  `fuel` bounds the number of iterations; it is
instantiated with `nlevels`, which covers the whole loop range. -/
def searchFrom (nlevels v : ℕ) : ℕ → ℕ → Option ℕ
  | 0, _ => none
  | fuel + 1, j =>
    if j < nlevels then
      if v ≤ quantThresh nlevels j then some j else searchFrom nlevels v fuel (j + 1)
    else none

/-- The inner threshold search of the table builders, started at `j = 0`. -/
def searchLevelOpt (nlevels v : ℕ) : Option ℕ := searchFrom nlevels v nlevels 0

/-- Entry `v` of the table built by `makeGrayQuantIndexTable(nlevels)`:
the level found by the threshold search, or the calloc default 0 if the
search fails. -/
def grayQuantIndexEntry (nlevels v : ℕ) : ℕ := (searchLevelOpt nlevels v).getD 0

/-- The 256-entry table returned by `makeGrayQuantIndexTable`. -/
def makeGrayQuantIndexTable (nlevels : ℕ) : List ℕ :=
  (List.range 256).map (grayQuantIndexEntry nlevels)

/-- The effective level count used by `makeGrayQuantTargetTable`:
`if (depth < 8) nlevels = 1 << depth;` — for depth < 8 the requested
count is replaced by `2^depth`. -/
def effLevels (nlevels depth : ℕ) : ℕ := if depth < 8 then 2 ^ depth else nlevels

/-- Entry `v` of the table built by `makeGrayQuantTargetTable(nlevels, depth)`:
the found level rescaled by `quantval = maxval * j / (nlevels - 1)` with
`maxval = (1 << depth) - 1`, or the calloc default 0 if the search fails. -/
def grayQuantTargetEntry (nlevels depth v : ℕ) : ℕ :=
  match searchLevelOpt (effLevels nlevels depth) v with
  | some j => (2 ^ depth - 1) * j / (effLevels nlevels depth - 1)
  | none => 0

/-- The 256-entry table returned by `makeGrayQuantTargetTable`. -/
def makeGrayQuantTargetTable (nlevels depth : ℕ) : List ℕ :=
  (List.range 256).map (grayQuantTargetEntry nlevels depth)

/-! ### Error-diffusion dithering to binary
(pixDitherToBinarySpec, grayquant.c lines 147-194, and pixDitherToBinaryLUT,
lines 331-385).  The per-pixel kernels ditherToBinaryLow, ditherToBinaryLUTLow
and the table builder make8To1DitherTables live in grayquantlow.c, which the
repository compiles (see c.sh) but whose source is not available here, so the
kernels are modelled from the specification (§4.3). -/

/-- Truncate a value to a byte, as SET_DATA_BYTE does. -/
def byteOf (v : ℕ) : Fin 256 := ⟨v % 256, by omega⟩

/-- The pair of line buffers used by the dithering pass: `cur` holds the
error-adjusted samples of the current row, `nxt` accumulates the
error-adjusted samples of the row below.  Cells are bytes, as in the C,
where both buffers are accessed with GET/SET_DATA_BYTE. -/
structure DitherBufs where
  cur : ℕ → Fin 256
  nxt : ℕ → Fin 256

/-- Write a byte into a line buffer. -/
def updBuf (f : ℕ → Fin 256) (x v : ℕ) : ℕ → Fin 256 :=
  fun y => if y = x then byteOf v else f y

/-- Modelled from the spec: one pixel of the direct-arithmetic dithering
kernel (ditherToBinaryLow / ditherToBinaryLineLow of grayquantlow.c).
Binary threshold 128: an adjusted sample above 127 binarizes to white
(bit 0) and its deficit below 255 is subtracted from the three unprocessed
neighbors in fractions 3/8, 3/8, 1/4, saturating at 0; a sample at or
below 127 binarizes to black (bit 1) and its excess above 0 is added to
the neighbors in the same fractions, saturating at 255.  Samples within
`upperclip` of 255 or at most `lowerclip` above 0 snap without any
propagation.  The last column drops the out-of-range (x+1) terms. -/
def ditherStepDirect (lowerclip upperclip w x : ℕ) (b : DitherBufs) :
    Bool × DitherBufs :=
  let o := (b.cur x).val
  if 127 < o then
    if upperclip < 255 - o then
      let e := 255 - o
      let e38 := 3 * e / 8
      let e14 := e / 4
      let cur1 := if x + 1 < w then updBuf b.cur (x + 1) ((b.cur (x + 1)).val - e38)
                  else b.cur
      let nxt1 := updBuf b.nxt x ((b.nxt x).val - e38)
      let nxt2 := if x + 1 < w then updBuf nxt1 (x + 1) ((nxt1 (x + 1)).val - e14)
                  else nxt1
      (false, ⟨cur1, nxt2⟩)
    else (false, b)
  else
    if lowerclip < o then
      let e38 := 3 * o / 8
      let e14 := o / 4
      let cur1 := if x + 1 < w then
                    updBuf b.cur (x + 1) (min 255 ((b.cur (x + 1)).val + e38))
                  else b.cur
      let nxt1 := updBuf b.nxt x (min 255 ((b.nxt x).val + e38))
      let nxt2 := if x + 1 < w then
                    updBuf nxt1 (x + 1) (min 255 ((nxt1 (x + 1)).val + e14))
                  else nxt1
      (true, ⟨cur1, nxt2⟩)
    else (true, b)

/-- Modelled from the spec: the `tabval` lookup table of
make8To1DitherTables — the chosen 1-bit output level for each raw value
(1 = black, for values strictly below the threshold 128). -/
def tabval8To1 (v : ℕ) : Bool := v < 128

/-- Modelled from the spec: the `tab38` lookup table of
make8To1DitherTables — the signed 3/8 diffusion amount for each raw value
(0 inside the clip zones). -/
def tab38To1 (lowerclip upperclip v : ℕ) : Int :=
  if 127 < v then
    if upperclip < 255 - v then -((3 * (255 - v) / 8 : ℕ) : Int) else 0
  else
    if lowerclip < v then ((3 * v / 8 : ℕ) : Int) else 0

/-- Modelled from the spec: the `tab14` lookup table of
make8To1DitherTables — the signed 1/4 diffusion amount for each raw value
(0 inside the clip zones). -/
def tab14To1 (lowerclip upperclip v : ℕ) : Int :=
  if 127 < v then
    if upperclip < 255 - v then -(((255 - v) / 4 : ℕ) : Int) else 0
  else
    if lowerclip < v then ((v / 4 : ℕ) : Int) else 0

/-- Add a signed diffusion amount to a byte, saturating the result
into [0, 255]. -/
def satAddByte (r : ℕ) (t : Int) : ℕ := (max 0 (min 255 ((r : Int) + t))).toNat

/-- Modelled from the spec: one pixel of the lookup-table dithering kernel
(ditherToBinaryLUTLow of grayquantlow.c): the output bit and the two
diffusion amounts are read from the three precomputed tables instead of
being computed by direct arithmetic. -/
def ditherStepLUT (lowerclip upperclip w x : ℕ) (b : DitherBufs) :
    Bool × DitherBufs :=
  let o := (b.cur x).val
  let t38 := tab38To1 lowerclip upperclip o
  let t14 := tab14To1 lowerclip upperclip o
  let cur1 := if x + 1 < w then
                updBuf b.cur (x + 1) (satAddByte (b.cur (x + 1)).val t38)
              else b.cur
  let nxt1 := updBuf b.nxt x (satAddByte (b.nxt x).val t38)
  let nxt2 := if x + 1 < w then
                updBuf nxt1 (x + 1) (satAddByte (nxt1 (x + 1)).val t14)
              else nxt1
  (tabval8To1 o, ⟨cur1, nxt2⟩)

/-- One row of the dithering pass: process columns 0..w-1 left to right,
collecting the output bits and threading the line buffers. -/
def ditherLine (step : ℕ → DitherBufs → Bool × DitherBufs) (w : ℕ)
    (b : DitherBufs) : List Bool × DitherBufs :=
  (List.range w).foldl
    (fun acc x =>
      let r := step x acc.2
      (acc.1 ++ [r.1], r.2))
    ([], b)

/-- The row loop of the dithering pass: the next-row buffer starts as the
raw samples of the row below and becomes the current buffer when the row
finishes (the buffer roles swap).  `rows` counts the rows remaining. -/
def ditherRowsAux (step : ℕ → DitherBufs → Bool × DitherBufs)
    (img : ℕ → ℕ → ℕ) (w : ℕ) : ℕ → ℕ → (ℕ → Fin 256) → List (List Bool)
  | 0, _, _ => []
  | rows + 1, y, cur =>
    let r := ditherLine step w ⟨cur, fun x => byteOf (img (y + 1) x)⟩
    r.1 :: ditherRowsAux step img w rows (y + 1) r.2.nxt

/-- A full dithering pass over an `w × h` gray image, parameterized by the
per-pixel step. -/
def ditherPass (step : ℕ → DitherBufs → Bool × DitherBufs)
    (img : ℕ → ℕ → ℕ) (w h : ℕ) : List (List Bool) :=
  ditherRowsAux step img w h 0 (fun x => byteOf (img 0 x))

/-- Modelled from the spec: the direct-arithmetic dithering kernel
(ditherToBinaryLow). -/
def ditherToBinaryKernel (lowerclip upperclip : ℕ) (img : ℕ → ℕ → ℕ)
    (w h : ℕ) : List (List Bool) :=
  ditherPass (ditherStepDirect lowerclip upperclip w) img w h

/-- Modelled from the spec: the lookup-table dithering kernel
(ditherToBinaryLUTLow driven by the make8To1DitherTables tables). -/
def ditherToBinaryLUTKernel (lowerclip upperclip : ℕ) (img : ℕ → ℕ → ℕ)
    (w h : ℕ) : List (List Bool) :=
  ditherPass (ditherStepLUT lowerclip upperclip w) img w h

/-- Modelled from the spec: pixRemoveColormap(REMOVE_CMAP_TO_GRAYSCALE)
(pixconv.c, not under src/) as used by this engine — a colormapped raster
is flattened to 8-bit gray by looking each stored index up in the
colormap; a raster without a colormap reads unchanged. -/
def flattenPix (r : Raster) : ℕ → ℕ → ℕ :=
  match r.cmap with
  | some c => fun y x => c.getD (r.pix y x % 2 ^ r.depth) 0 % 256
  | none => r.pix

/-- pixDitherToBinarySpec (grayquant.c lines 147-194): validate the depth
and both clip distances (each must lie in [0, 255]; the < 0 side cannot
fire for a natural number), remove any colormap, and run the
direct-arithmetic kernel into a fresh 1 bpp raster, here represented by
its matrix of bits. -/
def pixDitherToBinarySpec (pixs : Raster) (lowerclip upperclip : ℕ) :
    Option (List (List Bool)) :=
  if pixs.depth ≠ 8 then none
  else if 255 < lowerclip then none
  else if 255 < upperclip then none
  else some (ditherToBinaryKernel lowerclip upperclip (flattenPix pixs) pixs.w pixs.h)

/-- pixDitherToBinaryLUT (grayquant.c lines 331-385): validate the depth
(a negative clip distance would be replaced by the default; for natural
number arguments that path cannot fire, and no upper-range check is
performed), remove any colormap, build the three lookup tables and run
the LUT kernel. -/
def pixDitherToBinaryLUT (pixs : Raster) (lowerclip upperclip : ℕ) :
    Option (List (List Bool)) :=
  if pixs.depth ≠ 8 then none
  else some (ditherToBinaryLUTKernel lowerclip upperclip (flattenPix pixs) pixs.w pixs.h)

/-! ### Arbitrary-bin quantization (makeGrayQuantTableArb, grayquant.c
lines 1077-1126, and makeGrayQuantColormapArb, lines 1148-1220) -/

/-- One table-filling segment `for (j = jstart; j < val; j++) tab[j] = i;`
of makeGrayQuantTableArb; the write shadows earlier writes. -/
def fillRange (tab : ℕ → ℕ) (lo hi idx : ℕ) : ℕ → ℕ :=
  fun g => if lo ≤ g ∧ g < hi then idx else tab g

/-- The bin loop of makeGrayQuantTableArb: bin `i` covers
[jstart, na[i]), and the last bin covers [jstart, 256). -/
def arbTabAux : List ℕ → ℕ → ℕ → (ℕ → ℕ) → (ℕ → ℕ)
  | [], jstart, i, tab => fillRange tab jstart 256 i
  | val :: rest, jstart, i, tab => arbTabAux rest val (i + 1) (fillRange tab jstart val i)

/-- The colormap built alongside by makeGrayQuantTableArb: the midpoint
`(jstart + val) / 2` of each bin, and `(jstart + 255) / 2` for the last. -/
def arbCmapAux : List ℕ → ℕ → List ℕ
  | [], jstart => [(jstart + 255) / 2]
  | val :: rest, jstart => (jstart + val) / 2 :: arbCmapAux rest val

/-- makeGrayQuantTableArb (grayquant.c lines 1077-1126): both output
pointers are first set to NULL; if the `n + 1` bins exceed the `2^outdepth`
colormap capacity the call fails with no partial output (modelled by
`none`); otherwise it returns the inverse table and the center-of-bin
colormap. -/
def makeGrayQuantTableArb (na : List ℕ) (outdepth : ℕ) :
    Option ((ℕ → ℕ) × List ℕ) :=
  if 2 ^ outdepth < na.length + 1 then none
  else some (arbTabAux na 0 0 (fun _ => 0), arbCmapAux na 0)

/-- The sampled coordinates `0, factor, 2*factor, ...` below `n` used by
makeGrayQuantColormapArb. -/
def arbSampleRows (n factor : ℕ) : List ℕ :=
  (List.range n).filter (fun i => i % factor = 0)

/-- The per-bin sample count of makeGrayQuantColormapArb
(`bincount[tab[val]]++` over the sampled pixels). -/
def arbBinCount (pixs : Raster) (tab : ℕ → ℕ) (factor b : ℕ) : ℕ :=
  (arbSampleRows pixs.h factor).foldl
    (fun acc i =>
      acc + (arbSampleRows pixs.w factor).countP
        (fun j => tab (pixs.pix i j % 256) = b))
    0

/-- The per-bin sample sum of makeGrayQuantColormapArb
(`binave[tab[val]] += val` over the sampled pixels). -/
def arbBinSum (pixs : Raster) (tab : ℕ → ℕ) (factor b : ℕ) : ℕ :=
  (arbSampleRows pixs.h factor).foldl
    (fun acc i =>
      ((arbSampleRows pixs.w factor).filter
        (fun j => tab (pixs.pix i j % 256) = b)).foldl
        (fun a j => a + pixs.pix i j % 256) acc)
    0

/-- The binstart loop of makeGrayQuantColormapArb: scan i = 1..255 with a
running index starting at 1; when `tab[i]` first reaches the index, record
i as that bin's start (binstart[0] keeps its calloc default 0). -/
def binstartPair (tab : ℕ → ℕ) : ℕ × (ℕ → ℕ) :=
  (List.range' 1 255).foldl
    (fun p i =>
      if tab i < p.1 then p
      else if tab i = p.1 then (p.1 + 1, fun b => if b = p.1 then i else p.2 b)
      else p)
    (1, fun _ => 0)

/-- The smallest gray value starting bin `b`, as computed by the binstart
loop of makeGrayQuantColormapArb. -/
def binstartOf (tab : ℕ → ℕ) (b : ℕ) : ℕ := (binstartPair tab).2 b

/-- makeGrayQuantColormapArb (grayquant.c lines 1148-1220): fails when the
input is not 8 bpp or when the `tab[255] + 1` bins exceed the `2^outdepth`
capacity; otherwise every bin gets a colormap entry — the truncated mean
of its samples, or, for a bin with no samples, the center computed from
the binstart values (`(binstart[i] + binstart[i+1]) / 2`, and
`(binstart[i] + 255) / 2` for the last bin).  In the C the sampling
stride is `factor = max(1, (int)(sqrt(w*h/30000.) + 0.5))`, a
floating-point performance heuristic (spec §9 treats it as tunable, not a
bit-exact contract), so the model takes the stride as a parameter. -/
def makeGrayQuantColormapArb (pixs : Raster) (tab : ℕ → ℕ)
    (outdepth factor : ℕ) : Option (List ℕ) :=
  if pixs.depth ≠ 8 then none
  else if 2 ^ outdepth < tab 255 + 1 then none
  else some ((List.range (tab 255 + 1)).map (fun i =>
    if arbBinCount pixs tab factor i ≠ 0 then
      arbBinSum pixs tab factor i / arbBinCount pixs tab factor i
    else if i < tab 255 then (binstartOf tab i + binstartOf tab (i + 1)) / 2
    else (binstartOf tab i + 255) / 2))

/-- A 1×1 all-black 8 bpp raster used as a concrete sampling input. -/
def demoPix5 : Raster := ⟨1, 1, 8, fun _ _ => 0, none⟩

/-- A concrete 3-bin inverse table (bins [0,100), [100,200), [200,255]). -/
def demoTab5 : ℕ → ℕ := fun g => if g < 100 then 0 else if g < 200 then 1 else 2

/-! ### Pixelwise threshold binarization (pixThresholdToBinary, grayquant.c
lines 211-252, and pixVarThresholdToBinary, lines 269-309) -/

/-- Modelled from the spec: the per-pixel rule of thresholdToBinaryLow
(grayquantlow.c, not under src/): the output bit is 1 iff the source
sample is strictly below the threshold (§4.4: below threshold means
foreground). -/
def thresholdToBinaryLow (val thresh : ℕ) : Bool := val < thresh

/-- pixThresholdToBinary (grayquant.c lines 211-252): source depth must be
4 or 8 and the threshold must lie in [0, 16] resp. [0, 256] for the
original depth; a colormapped source is flattened to 8 bpp gray first and,
if it was 4 bpp, the threshold is scaled by 16; the output bit is produced
by the thresholdToBinaryLow rule at the working depth. -/
def pixThresholdToBinary (pixs : Raster) (thresh : ℕ) : Option Raster :=
  if pixs.depth ≠ 4 ∧ pixs.depth ≠ 8 then none
  else if pixs.depth = 4 ∧ 16 < thresh then none
  else if pixs.depth = 8 ∧ 256 < thresh then none
  else
    let d := if pixs.cmap.isSome then 8 else pixs.depth
    let t := if pixs.cmap.isSome ∧ pixs.depth = 4 then thresh * 16 else thresh
    let img := flattenPix pixs
    some ⟨pixs.w, pixs.h, 1,
      fun y x => if thresholdToBinaryLow (img y x % 2 ^ d) t then 1 else 0, none⟩

/-- pixVarThresholdToBinary (grayquant.c lines 269-309): the two rasters
must have equal sizes (pixSizesEqual of pix1.c, not under src/, is
modelled from the spec as comparing width, height and depth) and the
source must be 8 bpp; the output bit is 1 iff the source byte is strictly
below the corresponding byte of the threshold raster. -/
def pixVarThresholdToBinary (pixs pixg : Raster) : Option Raster :=
  if pixs.w ≠ pixg.w ∨ pixs.h ≠ pixg.h ∨ pixs.depth ≠ pixg.depth then none
  else if pixs.depth ≠ 8 then none
  else some ⟨pixs.w, pixs.h, 1,
    fun y x => if pixs.pix y x % 256 < pixg.pix y x % 256 then 1 else 0, none⟩

/-! ### Mask generation by two-reference discriminant
(pixGenerateMaskByDiscr32, grayquant.c lines 1310-1368) -/

/-- The distance metric selector of pixGenerateMaskByDiscr32
(L_MANHATTAN_DISTANCE or L_EUCLIDEAN_DISTANCE). -/
inductive DistFlag where
  | manhattan : DistFlag
  | euclidean : DistFlag

/-- The per-pixel distance of pixGenerateMaskByDiscr32 between a 32-bit
0xRRGGBBxx pixel and a reference value: the sum over the three channels of
absolute differences (manhattan) or squared differences (euclidean).
Channel values fit in a byte, so the C int arithmetic never overflows and
agrees with this natural number. -/
def discrDist (distflag : DistFlag) (refval p : ℕ) : ℕ :=
  let rr : ℕ := refval / 2 ^ 24 % 256
  let gr : ℕ := refval / 2 ^ 16 % 256
  let br : ℕ := refval / 2 ^ 8 % 256
  let rv : ℕ := p / 2 ^ 24 % 256
  let gv : ℕ := p / 2 ^ 16 % 256
  let bv : ℕ := p / 2 ^ 8 % 256
  match distflag with
  | DistFlag.manhattan =>
    ((rr : Int) - rv).natAbs + ((gr : Int) - gv).natAbs + ((br : Int) - bv).natAbs
  | DistFlag.euclidean =>
    ((rr : Int) - rv).natAbs ^ 2 + ((gr : Int) - gv).natAbs ^ 2 +
      ((br : Int) - bv).natAbs ^ 2

/-- pixGenerateMaskByDiscr32 (grayquant.c lines 1310-1368): the source
must be 32 bpp; a mask bit is set iff the pixel is strictly closer to
refval1 than to refval2 under the chosen metric. -/
def pixGenerateMaskByDiscr32 (pixs : Raster) (refval1 refval2 : ℕ)
    (distflag : DistFlag) : Option Raster :=
  if pixs.depth ≠ 32 then none
  else some ⟨pixs.w, pixs.h, 1,
    fun y x =>
      if discrDist distflag refval1 (pixs.pix y x % 2 ^ 32) <
          discrDist distflag refval2 (pixs.pix y x % 2 ^ 32) then 1 else 0,
    none⟩

/-! ### Quantizing grayscale through an existing colormap
(pixGrayQuantFromCmap, grayquant.c lines 1387-1459) -/

/-- Modelled from the spec: pixcmapGetNearestGrayIndex (colormap.c, not
under src/) — the colormap contract's nearestGrayIndex(value): an index
of a gray entry with minimal absolute difference to the value. -/
def nearestGrayIndex (c : List ℕ) (v : ℕ) : ℕ :=
  (List.range c.length).foldl
    (fun best i =>
      if ((c.getD i 0 : Int) - v).natAbs < ((c.getD best 0 : Int) - v).natAbs
      then i else best)
    0

/-- Modelled from the spec: pixcmapGetMinDepth (colormap.c, not under
src/) — the colormap contract's minDepthForEntryCount. -/
def cmapMinDepth (n : ℕ) : ℕ :=
  if n ≤ 2 then 1 else if n ≤ 4 then 2 else if n ≤ 16 then 4 else 8

/-- pixGrayQuantFromCmap (grayquant.c lines 1387-1459): if the source
already carries a colormap, a warning is issued and pixCopy returns an
identical copy of the source (modelled by `some pixs`), with no
quantization applied; otherwise the source must be 8 bpp, the colormap
present, mindepth ∈ {2, 4, 8}, and every pixel is replaced by the nearest
gray colormap index in a fresh raster carrying a copy of the colormap. -/
def pixGrayQuantFromCmap (pixs : Raster) (cmap : Option (List ℕ))
    (mindepth : ℕ) : Option Raster :=
  if pixs.cmap.isSome then some pixs
  else if pixs.depth ≠ 8 then none
  else
    match cmap with
    | none => none
    | some c =>
      if mindepth ≠ 2 ∧ mindepth ≠ 4 ∧ mindepth ≠ 8 then none
      else
        some ⟨pixs.w, pixs.h, max (cmapMinDepth c.length) mindepth,
          fun y x => nearestGrayIndex c (pixs.pix y x % 256), some c⟩

/-! ### A store of rasters, making the write pattern of the imperative
code explicit (for the frame properties of pixDitherToBinarySpec and
pixThresholdOn8bpp).  Ids below `next` are the allocated rasters; pixCreate
and pixCopy hand out the fresh id `next`, and SET_DATA_* writes go through
`storeModify` at one id. -/

structure Store where
  next : ℕ
  mem : ℕ → Option Raster

/-- Allocate a new raster (pixCreate / pixCopy / pixRemoveColormap to a
new pix) at the next unused id. -/
def storeAlloc (st : Store) (r : Raster) : Store :=
  ⟨st.next + 1, fun k => if k = st.next then some r else st.mem k⟩

/-- Apply an in-place write to the raster at `id`. -/
def storeModify (st : Store) (id : ℕ) (f : Raster → Raster) : Store :=
  ⟨st.next, fun k => if k = id then (st.mem k).map f else st.mem k⟩

/-- Overwrite pixel (i, j) of a raster with `v` (a SET_DATA_* write). -/
def setPix (r : Raster) (i j v : ℕ) : Raster :=
  { r with pix := fun y x => if y = i ∧ x = j then v else r.pix y x }

/-- Modelled from the spec: pixcmapCreateLinear (colormap.c, not under
src/) — `nlevels` equally spaced gray entries. -/
def cmapLinear (nlevels : ℕ) : List ℕ :=
  (List.range nlevels).map (fun i => 255 * i / (nlevels - 1))

/-- Modelled from the spec: removing the colormap of a colormapped raster
to grayscale builds a new 8 bpp raster holding the flattened samples. -/
def flattenRaster (r : Raster) : Raster := ⟨r.w, r.h, 8, flattenPix r, none⟩

/-- pixDitherToBinarySpec (grayquant.c lines 147-194) over the raster
store: after validation, pixCreate allocates a fresh 1 bpp destination
(zero-filled), the kernel reads the source through the two line buffers,
and every output bit is written into the destination only. -/
def pixDitherToBinarySpecStoreGo (st : Store) (pixs : Raster)
    (lowerclip upperclip : ℕ) : Option (Store × ℕ) :=
  if pixs.depth ≠ 8 then none
  else if 255 < lowerclip then none
  else if 255 < upperclip then none
  else
    let did := st.next
    let st1 := storeAlloc st ⟨pixs.w, pixs.h, 1, fun _ _ => 0, none⟩
    let bits := ditherToBinaryKernel lowerclip upperclip (flattenPix pixs)
      pixs.w pixs.h
    let st2 := (List.range pixs.h).foldl
      (fun s i => (List.range pixs.w).foldl
        (fun s2 j => storeModify s2 did
          (fun r => setPix r i j (if (bits.getD i []).getD j false then 1 else 0)))
        s)
      st1
    some (st2, did)

def pixDitherToBinarySpecStore (st : Store) (src lowerclip upperclip : ℕ) :
    Option (Store × ℕ) :=
  match st.mem src with
  | none => none
  | some pixs => pixDitherToBinarySpecStoreGo st pixs lowerclip upperclip

/-- pixThresholdOn8bpp (grayquant.c lines 906-956) over the raster store:
validates the depth and nlevels ∈ [2, 256]; builds the quantization table
(index table with a colormap, target table otherwise); the destination is
a new raster — the flattened copy when the source has a colormap, a
pixCopy otherwise — allocated at a fresh id, and each destination byte is
rewritten in place through the table. -/
def pixThresholdOn8bppGo (st : Store) (pixs : Raster) (nlevels : ℕ)
    (cmapflag : Bool) : Option (Store × ℕ) :=
  if pixs.depth ≠ 8 then none
  else if nlevels < 2 then none
  else if 256 < nlevels then none
  else
    let qtab : ℕ → ℕ :=
      if cmapflag then grayQuantIndexEntry nlevels
      else grayQuantTargetEntry nlevels 8
    let d0 : Raster := if pixs.cmap.isSome then flattenRaster pixs else pixs
    let d1 : Raster :=
      if cmapflag then { d0 with cmap := some (cmapLinear nlevels) } else d0
    let did := st.next
    let st1 := storeAlloc st d1
    let st2 := (List.range d1.h).foldl
      (fun s i => (List.range d1.w).foldl
        (fun s2 j => storeModify s2 did
          (fun r => setPix r i j (qtab (r.pix i j % 256) % 256)))
        s)
      st1
    some (st2, did)

def pixThresholdOn8bpp (st : Store) (src nlevels : ℕ) (cmapflag : Bool) :
    Option (Store × ℕ) :=
  match st.mem src with
  | none => none
  | some pixs => pixThresholdOn8bppGo st pixs nlevels cmapflag

/-- pixVarThresholdToBinary (grayquant.c lines 269-309) over the raster
store: after validation, pixCreate allocates a fresh zero-filled 1 bpp
destination and SET_DATA_BIT fires only where the source byte is below
the threshold byte; both inputs are only read. -/
def pixVarThresholdToBinaryStoreGo (st : Store) (pixs pixg : Raster) :
    Option (Store × ℕ) :=
  if pixs.w ≠ pixg.w ∨ pixs.h ≠ pixg.h ∨ pixs.depth ≠ pixg.depth then none
  else if pixs.depth ≠ 8 then none
  else
    let did := st.next
    let st1 := storeAlloc st ⟨pixs.w, pixs.h, 1, fun _ _ => 0, none⟩
    let st2 := (List.range pixs.h).foldl
      (fun s i => (List.range pixs.w).foldl
        (fun s2 j =>
          if pixs.pix i j % 256 < pixg.pix i j % 256 then
            storeModify s2 did (fun r => setPix r i j 1)
          else s2)
        s)
      st1
    some (st2, did)

def pixVarThresholdToBinaryStore (st : Store) (src gsrc : ℕ) :
    Option (Store × ℕ) :=
  match st.mem src, st.mem gsrc with
  | some pixs, some pixg => pixVarThresholdToBinaryStoreGo st pixs pixg
  | _, _ => none

/-- pixGenerateMaskByDiscr32 (grayquant.c lines 1310-1368) over the raster
store: after validation, pixCreate allocates a fresh zero-filled 1 bpp
destination and SET_DATA_BIT fires only where the pixel is strictly
closer to refval1; the source is only read. -/
def pixGenerateMaskByDiscr32StoreGo (st : Store) (pixs : Raster)
    (refval1 refval2 : ℕ) (distflag : DistFlag) : Option (Store × ℕ) :=
  if pixs.depth ≠ 32 then none
  else
    let did := st.next
    let st1 := storeAlloc st ⟨pixs.w, pixs.h, 1, fun _ _ => 0, none⟩
    let st2 := (List.range pixs.h).foldl
      (fun s i => (List.range pixs.w).foldl
        (fun s2 j =>
          if discrDist distflag refval1 (pixs.pix i j % 2 ^ 32) <
              discrDist distflag refval2 (pixs.pix i j % 2 ^ 32) then
            storeModify s2 did (fun r => setPix r i j 1)
          else s2)
        s)
      st1
    some (st2, did)

def pixGenerateMaskByDiscr32Store (st : Store) (src refval1 refval2 : ℕ)
    (distflag : DistFlag) : Option (Store × ℕ) :=
  match st.mem src with
  | none => none
  | some pixs => pixGenerateMaskByDiscr32StoreGo st pixs refval1 refval2 distflag

/-- A store holding an 8 bpp raster at id 0, a 32 bpp raster at id 1,
and nothing else. -/
def demoStore : Store :=
  ⟨2, fun k =>
    if k = 0 then some ⟨2, 2, 8, fun y x => 40 * y + 100 * x, none⟩
    else if k = 1 then some ⟨1, 1, 32, fun _ _ => 20 * 2 ^ 24, none⟩
    else none⟩

/-- A 4×1 8 bpp raster with samples 0, 127, 128, 255. -/
def demoPix6 : Raster := ⟨4, 1, 8, fun _ x => [0, 127, 128, 255].getD x 0, none⟩

/-! ### Basic facts about the threshold search -/

theorem searchFrom_some_spec (nlevels v : ℕ) :
    ∀ fuel j m, searchFrom nlevels v fuel j = some m →
      j ≤ m ∧ m < nlevels ∧ v ≤ quantThresh nlevels m ∧
        ∀ k, j ≤ k → k < m → quantThresh nlevels k < v := by
  intro fuel
  induction fuel with
  | zero => intro j m h; simp [searchFrom] at h
  | succ n ih =>
    intro j m h
    unfold searchFrom at h
    by_cases hj : j < nlevels
    · rw [if_pos hj] at h
      by_cases hsat : v ≤ quantThresh nlevels j
      · rw [if_pos hsat] at h
        injection h with h
        subst h
        exact ⟨le_refl _, hj, hsat, fun k hk1 hk2 => absurd hk1 (by omega)⟩
      · rw [if_neg hsat] at h
        obtain ⟨h1, h2, h3, h4⟩ := ih (j + 1) m h
        refine ⟨by omega, h2, h3, fun k hk1 hk2 => ?_⟩
        by_cases hkj : k = j
        · subst hkj; omega
        · exact h4 k (by omega) hk2
    · rw [if_neg hj] at h; exact absurd h (by simp)

theorem searchFrom_isSome (nlevels v m : ℕ) :
    ∀ fuel j, j ≤ m → m < nlevels → nlevels ≤ fuel + j →
      v ≤ quantThresh nlevels m → (searchFrom nlevels v fuel j).isSome = true := by
  intro fuel
  induction fuel with
  | zero => intro j h1 h2 h3 _; omega
  | succ n ih =>
    intro j h1 h2 h3 hsat
    unfold searchFrom
    rw [if_pos (by omega)]
    by_cases hs : v ≤ quantThresh nlevels j
    · rw [if_pos hs]; rfl
    · rw [if_neg hs]
      have hjm : j ≠ m := fun hc => hs (hc ▸ hsat)
      exact ih (j + 1) (by omega) h2 (by omega) hsat

theorem searchLevelOpt_spec (nlevels v m : ℕ) (h : searchLevelOpt nlevels v = some m) :
    m < nlevels ∧ v ≤ quantThresh nlevels m ∧
      ∀ k, k < m → quantThresh nlevels k < v := by
  obtain ⟨_, h2, h3, h4⟩ := searchFrom_some_spec nlevels v nlevels 0 m h
  exact ⟨h2, h3, fun k hk => h4 k (Nat.zero_le k) hk⟩

theorem searchLevelOpt_isSome (nlevels v m : ℕ) (hm : m < nlevels)
    (hsat : v ≤ quantThresh nlevels m) : (searchLevelOpt nlevels v).isSome = true :=
  searchFrom_isSome nlevels v m nlevels 0 (Nat.zero_le m) hm (by omega) hsat

theorem quantThresh_top (n : ℕ) (h2 : 2 ≤ n) : 255 ≤ quantThresh n (n - 1) := by
  unfold quantThresh
  rw [Nat.le_div_iff_mul_le (by omega)]
  omega

theorem quantThresh_small (n k : ℕ) (h2 : 2 ≤ n) (hk : k + 2 ≤ n) :
    quantThresh n k < 255 := by
  unfold quantThresh
  rw [Nat.div_lt_iff_lt_mul (by omega)]
  omega

/-! ### Equivalence of the two dithering kernels -/

theorem byteOf_val (a : Fin 256) : byteOf a.val = a :=
  Fin.ext (Nat.mod_eq_of_lt a.isLt)

theorem updBuf_self (f : ℕ → Fin 256) (x : ℕ) : updBuf f x (f x).val = f := by
  funext y
  unfold updBuf
  by_cases h : y = x
  · subst h; simp [byteOf_val]
  · simp [h]

theorem satAddByte_zeroF (a : Fin 256) : satAddByte a.val 0 = a.val := by
  have := a.isLt
  unfold satAddByte
  omega

theorem satAddByte_negF (a : Fin 256) (e : ℕ) :
    satAddByte a.val (-(e : Int)) = a.val - e := by
  have := a.isLt
  unfold satAddByte
  omega

theorem satAddByte_posF (a : Fin 256) (e : ℕ) :
    satAddByte a.val ((e : ℕ) : Int) = min 255 (a.val + e) := by
  have := a.isLt
  unfold satAddByte
  omega

theorem ditherStep_eq (lowerclip upperclip w : ℕ) :
    ditherStepDirect lowerclip upperclip w = ditherStepLUT lowerclip upperclip w := by
  funext x b
  simp only [ditherStepDirect, ditherStepLUT, tab38To1, tab14To1, tabval8To1]
  by_cases h1 : 127 < (b.cur x).val
  · have hb : ¬((b.cur x).val < 128) := by omega
    by_cases h2 : upperclip < 255 - (b.cur x).val
    · simp only [if_pos h1, if_pos h2, decide_eq_false hb, satAddByte_negF]
    · simp only [if_pos h1, if_neg h2, decide_eq_false hb, satAddByte_zeroF,
        updBuf_self, ite_self]
  · have hb : (b.cur x).val < 128 := by omega
    by_cases h2 : lowerclip < (b.cur x).val
    · simp only [if_neg h1, if_pos h2, decide_eq_true hb, satAddByte_posF]
    · simp only [if_neg h1, if_neg h2, decide_eq_true hb, satAddByte_zeroF,
        updBuf_self, ite_self]

theorem ditherKernels_eq (lowerclip upperclip : ℕ) (img : ℕ → ℕ → ℕ) (w h : ℕ) :
    ditherToBinaryKernel lowerclip upperclip img w h =
      ditherToBinaryLUTKernel lowerclip upperclip img w h := by
  unfold ditherToBinaryKernel ditherToBinaryLUTKernel
  rw [ditherStep_eq]

/-- C1: for every 8 bpp input raster and every pair of clip parameters in
range, the direct-arithmetic dithering path (pixDitherToBinarySpec) and
the lookup-table dithering path (pixDitherToBinaryLUT, via the
tabval/tab38/tab14 tables) both succeed and produce bit-identical 1 bpp
output rasters. -/
theorem dither_paths_agree (pixs : Raster) (lowerclip upperclip : ℕ)
    (h8 : pixs.depth = 8) (hlc : lowerclip ≤ 255) (huc : upperclip ≤ 255) :
    pixDitherToBinarySpec pixs lowerclip upperclip =
      pixDitherToBinaryLUT pixs lowerclip upperclip ∧
    pixDitherToBinarySpec pixs lowerclip upperclip ≠ none := by
  unfold pixDitherToBinarySpec pixDitherToBinaryLUT
  rw [if_neg (by simp [h8]), if_neg (by omega), if_neg (by omega),
    if_neg (by simp [h8]), ditherKernels_eq]
  exact ⟨rfl, by simp⟩

/-! ### Monotonicity and totality of the linear quantization tables -/

theorem searchLevelOpt_isSome_of_byte (n v : ℕ) (h2 : 2 ≤ n) (hv : v < 256) :
    (searchLevelOpt n v).isSome = true :=
  searchLevelOpt_isSome n v (n - 1) (by omega)
    (le_trans (by omega) (quantThresh_top n h2))

/-- C2: for every nlevels in [2, 256], the 256-entry table returned by
makeGrayQuantIndexTable(nlevels) is non-decreasing in the input value,
every entry lies in [0, nlevels - 1], and entry 255 equals nlevels - 1. -/
theorem indexTable_monotone_range (nlevels : ℕ) (h2 : 2 ≤ nlevels)
    (h256 : nlevels ≤ 256) :
    (makeGrayQuantIndexTable nlevels).length = 256 ∧
    (∀ v, v < 256 →
      (makeGrayQuantIndexTable nlevels).getD v 0 = grayQuantIndexEntry nlevels v) ∧
    (∀ v1 v2, v1 ≤ v2 → v2 < 256 →
      grayQuantIndexEntry nlevels v1 ≤ grayQuantIndexEntry nlevels v2) ∧
    (∀ v, v < 256 → grayQuantIndexEntry nlevels v ≤ nlevels - 1) ∧
    grayQuantIndexEntry nlevels 255 = nlevels - 1 := by
  refine ⟨by simp [makeGrayQuantIndexTable], fun v hv => ?_, fun v1 v2 h12 hv2 => ?_,
    fun v hv => ?_, ?_⟩
  · simp [makeGrayQuantIndexTable, List.getD_eq_getElem?_getD, hv]
  · obtain ⟨m1, hm1⟩ := Option.isSome_iff_exists.mp
      (searchLevelOpt_isSome_of_byte nlevels v1 h2 (by omega))
    obtain ⟨m2, hm2⟩ := Option.isSome_iff_exists.mp
      (searchLevelOpt_isSome_of_byte nlevels v2 h2 hv2)
    obtain ⟨_, _, hmin1⟩ := searchLevelOpt_spec nlevels v1 m1 hm1
    obtain ⟨_, hsat2, _⟩ := searchLevelOpt_spec nlevels v2 m2 hm2
    unfold grayQuantIndexEntry
    rw [hm1, hm2]
    by_contra hcon
    have hlt : m2 < m1 := by simp at hcon ⊢; omega
    exact absurd (hmin1 m2 hlt) (by omega)
  · obtain ⟨m, hm⟩ := Option.isSome_iff_exists.mp
      (searchLevelOpt_isSome_of_byte nlevels v h2 hv)
    obtain ⟨hlt, _, _⟩ := searchLevelOpt_spec nlevels v m hm
    unfold grayQuantIndexEntry
    rw [hm]
    simp
    omega
  · obtain ⟨m, hm⟩ := Option.isSome_iff_exists.mp
      (searchLevelOpt_isSome_of_byte nlevels 255 h2 (by omega))
    obtain ⟨hlt, hsat, hmin⟩ := searchLevelOpt_spec nlevels 255 m hm
    unfold grayQuantIndexEntry
    rw [hm]
    simp
    by_contra hcon
    have hsmall : m + 2 ≤ nlevels := by omega
    have := quantThresh_small nlevels m h2 hsmall
    omega

theorem indexTable_monotone_range_witness :
    grayQuantIndexEntry 4 255 = 4 - 1 :=
  (indexTable_monotone_range 4 (by decide) (by decide)).2.2.2.2

/-- C10: for every nlevels in [2, 256] and every depth the builders are
called with, the inner threshold search of makeGrayQuantIndexTable and of
makeGrayQuantTargetTable finds, for every input value v in [0, 255], some
level j < nlevels with v ≤ 255 * (2 * j + 1) / (2 * nlevels - 2) and
breaks, so no table entry is left at its zero-initialized default, and
the divisor 2 * nlevels - 2 is nonzero. -/
theorem quantSearch_total (nlevels depth v : ℕ) (h2 : 2 ≤ nlevels)
    (h256 : nlevels ≤ 256) (hd : depth = 2 ∨ depth = 4 ∨ depth = 8)
    (hv : v < 256) :
    searchLevelOpt nlevels v ≠ none ∧
    searchLevelOpt (effLevels nlevels depth) v ≠ none ∧
    2 * nlevels - 2 ≠ 0 ∧
    2 * effLevels nlevels depth - 2 ≠ 0 ∧
    (∃ j, searchLevelOpt nlevels v = some j ∧ j < nlevels ∧
      v ≤ quantThresh nlevels j) := by
  have he2 : 2 ≤ effLevels nlevels depth := by
    rcases hd with h | h | h <;> subst h
    · norm_num [effLevels]
    · norm_num [effLevels]
    · simpa [effLevels] using h2
  have h1 := searchLevelOpt_isSome_of_byte nlevels v h2 hv
  have h1e := searchLevelOpt_isSome_of_byte (effLevels nlevels depth) v he2 hv
  obtain ⟨m, hm⟩ := Option.isSome_iff_exists.mp h1
  obtain ⟨hlt, hsat, _⟩ := searchLevelOpt_spec nlevels v m hm
  exact ⟨Option.isSome_iff_ne_none.mp h1, Option.isSome_iff_ne_none.mp h1e,
    by omega, by omega, m, hm, hlt, hsat⟩

theorem quantSearch_total_witness :
    searchLevelOpt 4 17 ≠ none ∧ 2 * 4 - 2 ≠ 0 :=
  ⟨(quantSearch_total 4 2 17 (by decide) (by decide) (Or.inl rfl) (by decide)).1,
   (quantSearch_total 4 2 17 (by decide) (by decide) (Or.inl rfl) (by decide)).2.2.1⟩

theorem dither_paths_agree_witness :
    pixDitherToBinarySpec ⟨2, 2, 8, fun y x => 17 * (y + 2 * x), none⟩ 6 6 =
      pixDitherToBinaryLUT ⟨2, 2, 8, fun y x => 17 * (y + 2 * x), none⟩ 6 6 :=
  (dither_paths_agree ⟨2, 2, 8, fun y x => 17 * (y + 2 * x), none⟩ 6 6 rfl
    (by decide) (by decide)).1

/-! ### Arbitrary-bin capacity error and empty-bin fallback -/

/-- C4: for every bin-boundary sequence of n boundaries and output depth d
with n + 1 > 2^d, makeGrayQuantTableArb fails with the bin-capacity error
and produces no partial output (neither a table nor a colormap, i.e.
`none`); makeGrayQuantColormapArb likewise fails when its table needs more
bins than 2^d. -/
theorem arbTable_capacity_error (na : List ℕ) (outdepth : ℕ)
    (h : 2 ^ outdepth < na.length + 1) :
    makeGrayQuantTableArb na outdepth = none ∧
    ∀ pixs tab factor, 2 ^ outdepth < tab 255 + 1 →
      makeGrayQuantColormapArb pixs tab outdepth factor = none := by
  refine ⟨by unfold makeGrayQuantTableArb; rw [if_pos h], ?_⟩
  intro pixs tab factor htab
  unfold makeGrayQuantColormapArb
  by_cases hd : pixs.depth ≠ 8
  · rw [if_pos hd]
  · rw [if_neg hd, if_pos htab]

theorem arbTable_capacity_error_witness :
    makeGrayQuantTableArb [10, 20, 30, 40, 50] 2 = none :=
  (arbTable_capacity_error [10, 20, 30, 40, 50] 2 (by decide)).1

/-- C5: in makeGrayQuantColormapArb, every bin index below nbins receives
a defined colormap entry (the returned colormap has exactly nbins
entries), and a bin whose sample count is zero gets its geometric center
(binstart[i] + binstart[i+1]) / 2, or (binstart[i] + 255) / 2 for the
last bin, computed from the smallest gray value starting each bin. -/
theorem emptyBin_center (pixs : Raster) (tab : ℕ → ℕ) (outdepth factor : ℕ)
    (cmap : List ℕ) (_hf : 1 ≤ factor)
    (h : makeGrayQuantColormapArb pixs tab outdepth factor = some cmap) :
    cmap.length = tab 255 + 1 ∧
    ∀ i, i < tab 255 + 1 → arbBinCount pixs tab factor i = 0 →
      cmap.getD i 0 =
        if i < tab 255 then (binstartOf tab i + binstartOf tab (i + 1)) / 2
        else (binstartOf tab i + 255) / 2 := by
  unfold makeGrayQuantColormapArb at h
  by_cases hd : pixs.depth ≠ 8
  · rw [if_pos hd] at h; exact absurd h (by simp)
  · rw [if_neg hd] at h
    by_cases hcap : 2 ^ outdepth < tab 255 + 1
    · rw [if_pos hcap] at h; exact absurd h (by simp)
    · rw [if_neg hcap] at h
      injection h with h
      subst h
      refine ⟨by simp, fun i hi hcount => ?_⟩
      rw [List.getD_eq_getElem?_getD, List.getElem?_map, List.getElem?_range hi]
      simp [hcount]

set_option maxRecDepth 10000 in
theorem emptyBin_center_witness :
    ([0, 150, 227] : List ℕ).getD 1 0 =
      if 1 < demoTab5 255 then
        (binstartOf demoTab5 1 + binstartOf demoTab5 (1 + 1)) / 2
      else (binstartOf demoTab5 1 + 255) / 2 :=
  (emptyBin_center demoPix5 demoTab5 2 1 [0, 150, 227] (by decide)
    (by decide)).2 1 (by decide) (by decide)

/-! ### Frame properties of the imperative writes -/

theorem storeModify_mem_ne (st : Store) (id k : ℕ) (f : Raster → Raster)
    (h : k ≠ id) : (storeModify st id f).mem k = st.mem k := by
  simp [storeModify, h]

theorem foldl_mem_frame {α : Type} (g : Store → α → Store) (k : ℕ)
    (hg : ∀ s a, (g s a).mem k = s.mem k) :
    ∀ (l : List α) (s : Store), (l.foldl g s).mem k = s.mem k := by
  intro l
  induction l with
  | nil => intro s; rfl
  | cons a t ih => intro s; rw [List.foldl_cons, ih, hg]

theorem writeLoop_mem_frame (did k : ℕ) (hk : k ≠ did)
    (f : ℕ → ℕ → Raster → Raster) (rows cols : List ℕ) (s : Store) :
    (rows.foldl (fun s1 i => cols.foldl
      (fun s2 j => storeModify s2 did (f i j)) s1) s).mem k = s.mem k :=
  foldl_mem_frame _ k
    (fun s1 i => foldl_mem_frame _ k
      (fun s2 j => storeModify_mem_ne s2 did k (f i j) hk) cols s1) rows s

theorem storeAlloc_mem_ne (st : Store) (r : Raster) (k : ℕ)
    (h : k ≠ st.next) : (storeAlloc st r).mem k = st.mem k := by
  simp [storeAlloc, h]

theorem pixDitherToBinarySpecStore_eq_go (st : Store) (src lowerclip upperclip : ℕ)
    (pixs : Raster) (hmem : st.mem src = some pixs) :
    pixDitherToBinarySpecStore st src lowerclip upperclip =
      pixDitherToBinarySpecStoreGo st pixs lowerclip upperclip := by
  unfold pixDitherToBinarySpecStore
  rw [hmem]

theorem pixThresholdOn8bpp_eq_go (st : Store) (src nlevels : ℕ) (cmapflag : Bool)
    (pixs : Raster) (hmem : st.mem src = some pixs) :
    pixThresholdOn8bpp st src nlevels cmapflag =
      pixThresholdOn8bppGo st pixs nlevels cmapflag := by
  unfold pixThresholdOn8bpp
  rw [hmem]

theorem pixVarThresholdToBinaryStore_eq_go (st : Store) (src gsrc : ℕ)
    (pixs pixg : Raster) (hmem : st.mem src = some pixs)
    (hmemg : st.mem gsrc = some pixg) :
    pixVarThresholdToBinaryStore st src gsrc =
      pixVarThresholdToBinaryStoreGo st pixs pixg := by
  unfold pixVarThresholdToBinaryStore
  rw [hmem, hmemg]

theorem pixGenerateMaskByDiscr32Store_eq_go (st : Store) (src refval1 refval2 : ℕ)
    (distflag : DistFlag) (pixs : Raster) (hmem : st.mem src = some pixs) :
    pixGenerateMaskByDiscr32Store st src refval1 refval2 distflag =
      pixGenerateMaskByDiscr32StoreGo st pixs refval1 refval2 distflag := by
  unfold pixGenerateMaskByDiscr32Store
  rw [hmem]


/-- C8: the engine does not mutate its source rasters: for every
successful call of the dithering (pixDitherToBinarySpec), quantization
(pixThresholdOn8bpp), variable-threshold binarization
(pixVarThresholdToBinary) and mask-generation (pixGenerateMaskByDiscr32)
operations on a well-formed store, the input raster(s) — their pixel
data, dimensions, depth and colormap — are identical before and after
the call, and the returned raster is a newly allocated object (a fresh
id that held no raster before the call). -/
theorem source_not_mutated (st : Store)
    (src gsrc lowerclip upperclip nlevels refval1 refval2 : ℕ)
    (cmapflag : Bool) (distflag : DistFlag)
    (hwf : ∀ k r, st.mem k = some r → k < st.next) :
    (∀ st2 did, pixDitherToBinarySpecStore st src lowerclip upperclip = some (st2, did) →
      st2.mem src = st.mem src ∧ did ≠ src ∧ st.mem did = none) ∧
    (∀ st2 did, pixThresholdOn8bpp st src nlevels cmapflag = some (st2, did) →
      st2.mem src = st.mem src ∧ did ≠ src ∧ st.mem did = none) ∧
    (∀ st2 did, pixVarThresholdToBinaryStore st src gsrc = some (st2, did) →
      st2.mem src = st.mem src ∧ st2.mem gsrc = st.mem gsrc ∧
        did ≠ src ∧ did ≠ gsrc ∧ st.mem did = none) ∧
    (∀ st2 did, pixGenerateMaskByDiscr32Store st src refval1 refval2 distflag
        = some (st2, did) →
      st2.mem src = st.mem src ∧ did ≠ src ∧ st.mem did = none) := by
  have hnext : st.mem st.next = none := by
    cases hn : st.mem st.next with
    | none => rfl
    | some r => exact absurd (hwf _ r hn) (by omega)
  refine ⟨?_, ?_, ?_, ?_⟩
  · intro st2 did h
    cases hmem : st.mem src with
    | none => simp [pixDitherToBinarySpecStore, hmem] at h
    | some pixs =>
      rw [pixDitherToBinarySpecStore_eq_go st src lowerclip upperclip pixs hmem] at h
      have hsrc : src < st.next := hwf src pixs hmem
      unfold pixDitherToBinarySpecStoreGo at h
      by_cases h8 : pixs.depth ≠ 8
      · rw [if_pos h8] at h; exact absurd h (by simp)
      · rw [if_neg h8] at h
        by_cases hl : 255 < lowerclip
        · rw [if_pos hl] at h; exact absurd h (by simp)
        · rw [if_neg hl] at h
          by_cases hu : 255 < upperclip
          · rw [if_pos hu] at h; exact absurd h (by simp)
          · rw [if_neg hu] at h
            simp only [Option.some.injEq, Prod.mk.injEq] at h
            obtain ⟨hst2, hdid⟩ := h
            subst hst2
            subst hdid
            refine ⟨?_, by omega, hnext⟩
            exact ((writeLoop_mem_frame st.next src (by omega) _ _ _ _).trans
              (storeAlloc_mem_ne st _ src (by omega))).trans hmem
  · intro st2 did h
    cases hmem : st.mem src with
    | none => simp [pixThresholdOn8bpp, hmem] at h
    | some pixs =>
      rw [pixThresholdOn8bpp_eq_go st src nlevels cmapflag pixs hmem] at h
      have hsrc : src < st.next := hwf src pixs hmem
      unfold pixThresholdOn8bppGo at h
      by_cases h8 : pixs.depth ≠ 8
      · rw [if_pos h8] at h; exact absurd h (by simp)
      · rw [if_neg h8] at h
        by_cases hl : nlevels < 2
        · rw [if_pos hl] at h; exact absurd h (by simp)
        · rw [if_neg hl] at h
          by_cases hu : 256 < nlevels
          · rw [if_pos hu] at h; exact absurd h (by simp)
          · rw [if_neg hu] at h
            simp only [Option.some.injEq, Prod.mk.injEq] at h
            obtain ⟨hst2, hdid⟩ := h
            subst hst2
            subst hdid
            refine ⟨?_, by omega, hnext⟩
            exact ((writeLoop_mem_frame st.next src (by omega) _ _ _ _).trans
              (storeAlloc_mem_ne st _ src (by omega))).trans hmem
  · intro st2 did h
    cases hmem : st.mem src with
    | none => simp [pixVarThresholdToBinaryStore, hmem] at h
    | some pixs =>
      cases hmemg : st.mem gsrc with
      | none => simp [pixVarThresholdToBinaryStore, hmem, hmemg] at h
      | some pixg =>
        rw [pixVarThresholdToBinaryStore_eq_go st src gsrc pixs pixg hmem hmemg] at h
        have hsrc : src < st.next := hwf src pixs hmem
        have hgsrc : gsrc < st.next := hwf gsrc pixg hmemg
        unfold pixVarThresholdToBinaryStoreGo at h
        by_cases h1 : pixs.w ≠ pixg.w ∨ pixs.h ≠ pixg.h ∨ pixs.depth ≠ pixg.depth
        · rw [if_pos h1] at h; exact absurd h (by simp)
        · rw [if_neg h1] at h
          by_cases h2 : pixs.depth ≠ 8
          · rw [if_pos h2] at h; exact absurd h (by simp)
          · rw [if_neg h2] at h
            simp only [Option.some.injEq, Prod.mk.injEq] at h
            obtain ⟨hst2, hdid⟩ := h
            subst hst2
            subst hdid
            refine ⟨?_, ?_, by omega, by omega, hnext⟩
            · exact ((foldl_mem_frame _ src
                (fun s1 i => foldl_mem_frame _ src
                  (fun s2 j => by
                    split
                    · exact storeModify_mem_ne _ _ _ _ (by omega)
                    · rfl) _ s1) _ _).trans
                ((storeAlloc_mem_ne st _ src (by omega)).trans hmem))
            · exact ((foldl_mem_frame _ gsrc
                (fun s1 i => foldl_mem_frame _ gsrc
                  (fun s2 j => by
                    split
                    · exact storeModify_mem_ne _ _ _ _ (by omega)
                    · rfl) _ s1) _ _).trans
                ((storeAlloc_mem_ne st _ gsrc (by omega)).trans hmemg))
  · intro st2 did h
    cases hmem : st.mem src with
    | none => simp [pixGenerateMaskByDiscr32Store, hmem] at h
    | some pixs =>
      rw [pixGenerateMaskByDiscr32Store_eq_go st src refval1 refval2 distflag
        pixs hmem] at h
      have hsrc : src < st.next := hwf src pixs hmem
      unfold pixGenerateMaskByDiscr32StoreGo at h
      by_cases h32 : pixs.depth ≠ 32
      · rw [if_pos h32] at h; exact absurd h (by simp)
      · rw [if_neg h32] at h
        simp only [Option.some.injEq, Prod.mk.injEq] at h
        obtain ⟨hst2, hdid⟩ := h
        subst hst2
        subst hdid
        refine ⟨?_, by omega, hnext⟩
        exact ((foldl_mem_frame _ src
          (fun s1 i => foldl_mem_frame _ src
            (fun s2 j => by
              split
              · exact storeModify_mem_ne _ _ _ _ (by omega)
              · rfl) _ s1) _ _).trans
          ((storeAlloc_mem_ne st _ src (by omega)).trans hmem))

theorem source_not_mutated_witness :
    ((pixDitherToBinarySpecStore demoStore 0 6 6).map
      (fun p => p.1.mem 0)).getD none = demoStore.mem 0 ∧
    ((pixThresholdOn8bpp demoStore 0 4 true).map
      (fun p => p.1.mem 0)).getD none = demoStore.mem 0 ∧
    ((pixVarThresholdToBinaryStore demoStore 0 0).map
      (fun p => p.1.mem 0)).getD none = demoStore.mem 0 ∧
    ((pixGenerateMaskByDiscr32Store demoStore 1 (10 * 2 ^ 24) (30 * 2 ^ 24)
      DistFlag.manhattan).map
      (fun p => p.1.mem 1)).getD none = demoStore.mem 1 := by
  have hwf : ∀ k r, demoStore.mem k = some r → k < demoStore.next := by
    intro k r h
    by_cases hk0 : k = 0
    · subst hk0; decide
    · by_cases hk1 : k = 1
      · subst hk1; decide
      · simp [demoStore, hk0, hk1] at h
  refine ⟨?_, ?_, ?_, ?_⟩
  · have hs : (pixDitherToBinarySpecStore demoStore 0 6 6).isSome = true := rfl
    cases hrun : pixDitherToBinarySpecStore demoStore 0 6 6 with
    | none => rw [hrun] at hs; exact absurd hs (by simp)
    | some p =>
      have hfr := (source_not_mutated demoStore 0 0 6 6 4 0 0 true
        DistFlag.manhattan hwf).1 p.1 p.2 (by rw [hrun])
      simp only [hrun, Option.map_some', Option.getD_some]
      exact hfr.1
  · have hs : (pixThresholdOn8bpp demoStore 0 4 true).isSome = true := rfl
    cases hrun : pixThresholdOn8bpp demoStore 0 4 true with
    | none => rw [hrun] at hs; exact absurd hs (by simp)
    | some p =>
      have hfr := (source_not_mutated demoStore 0 0 6 6 4 0 0 true
        DistFlag.manhattan hwf).2.1 p.1 p.2 (by rw [hrun])
      simp only [hrun, Option.map_some', Option.getD_some]
      exact hfr.1
  · have hs : (pixVarThresholdToBinaryStore demoStore 0 0).isSome = true := rfl
    cases hrun : pixVarThresholdToBinaryStore demoStore 0 0 with
    | none => rw [hrun] at hs; exact absurd hs (by simp)
    | some p =>
      have hfr := (source_not_mutated demoStore 0 0 6 6 4 0 0 true
        DistFlag.manhattan hwf).2.2.1 p.1 p.2 (by rw [hrun])
      simp only [hrun, Option.map_some', Option.getD_some]
      exact hfr.1
  · have hs : (pixGenerateMaskByDiscr32Store demoStore 1 (10 * 2 ^ 24)
        (30 * 2 ^ 24) DistFlag.manhattan).isSome = true := rfl
    cases hrun : pixGenerateMaskByDiscr32Store demoStore 1 (10 * 2 ^ 24)
        (30 * 2 ^ 24) DistFlag.manhattan with
    | none => rw [hrun] at hs; exact absurd hs (by simp)
    | some p =>
      have hfr := (source_not_mutated demoStore 1 0 6 6 4 (10 * 2 ^ 24)
        (30 * 2 ^ 24) true DistFlag.manhattan hwf).2.2.2 p.1 p.2 (by rw [hrun])
      simp only [hrun, Option.map_some', Option.getD_some]
      exact hfr.1

/-! ### Where the level-count range is (and is not) validated -/

/-- C3 counterexample: the table builders themselves do not fail on an
out-of-range level count.  makeGrayQuantTargetTable called with
nlevels = 300, far outside [2, 2^4] = [2, 16] for depth 4, silently clamps
the level count and returns exactly the table it returns for 16 levels;
and makeGrayQuantIndexTable called with the out-of-range count 300 also
returns a full 256-entry table instead of a distinguished error value. -/
theorem levels_not_checked_by_builders :
    makeGrayQuantTargetTable 300 4 = makeGrayQuantTargetTable 16 4 ∧
    (makeGrayQuantIndexTable 300).length = 256 := by
  constructor
  · unfold makeGrayQuantTargetTable
    congr 1
  · simp [makeGrayQuantIndexTable]

/-- C3 amended: the level-count range validation lives in the pixel-level
caller: pixThresholdOn8bpp rejects any nlevels outside [2, 256] with a
distinguished error value and produces no table and no raster; the
builders themselves perform no range check — makeGrayQuantTargetTable
silently clamps the count to 2^depth whenever depth < 8 (whatever count
is requested), and makeGrayQuantIndexTable silently accepts out-of-range
counts. -/
theorem levels_checked_by_caller (st : Store) (src nlevels m1 m2 d : ℕ)
    (cmapflag : Bool) (hout : nlevels < 2 ∨ 256 < nlevels) (hd : d < 8) :
    pixThresholdOn8bpp st src nlevels cmapflag = none ∧
    makeGrayQuantTargetTable m1 d = makeGrayQuantTargetTable m2 d := by
  constructor
  · cases hmem : st.mem src with
    | none => simp [pixThresholdOn8bpp, hmem]
    | some pixs =>
      rw [pixThresholdOn8bpp_eq_go st src nlevels cmapflag pixs hmem]
      unfold pixThresholdOn8bppGo
      by_cases h8 : pixs.depth ≠ 8
      · rw [if_pos h8]
      · rw [if_neg h8]
        rcases hout with hlo | hhi
        · rw [if_pos hlo]
        · rw [if_neg (by omega), if_pos hhi]
  · unfold makeGrayQuantTargetTable
    congr 1
    funext v
    simp only [grayQuantTargetEntry, effLevels, if_pos hd]

theorem levels_checked_by_caller_witness :
    pixThresholdOn8bpp demoStore 0 1 true = none :=
  (levels_checked_by_caller demoStore 0 1 4 7 4 true (Or.inl (by decide))
    (by decide)).1

/-! ### Binarizer polarity -/

theorem flattenPix_none (r : Raster) (h : r.cmap = none) : flattenPix r = r.pix := by
  unfold flattenPix
  rw [h]

/-- C6: the binarizers use the inverted polarity: for the fixed-threshold
form (on a source without a colormap, so no promotion applies), an output
bit is 1 if and only if the source sample is strictly less than the
threshold; for the variable-threshold form, an output bit is 1 if and
only if the source sample is strictly less than the corresponding sample
of the threshold raster. -/
theorem binarizer_polarity :
    (∀ pixs thresh out, pixs.cmap = none →
      pixThresholdToBinary pixs thresh = some out → ∀ y x,
        out.pix y x = (if pixs.pix y x % 2 ^ pixs.depth < thresh then 1 else 0) ∧
        (out.pix y x = 1 ↔ pixs.pix y x % 2 ^ pixs.depth < thresh)) ∧
    (∀ pixs pixg out, pixVarThresholdToBinary pixs pixg = some out → ∀ y x,
        out.pix y x = (if pixs.pix y x % 256 < pixg.pix y x % 256 then 1 else 0) ∧
        (out.pix y x = 1 ↔ pixs.pix y x % 256 < pixg.pix y x % 256)) := by
  constructor
  · intro pixs thresh out hcm h y x
    unfold pixThresholdToBinary at h
    by_cases h1 : pixs.depth ≠ 4 ∧ pixs.depth ≠ 8
    · rw [if_pos h1] at h; exact absurd h (by simp)
    · rw [if_neg h1] at h
      by_cases h2 : pixs.depth = 4 ∧ 16 < thresh
      · rw [if_pos h2] at h; exact absurd h (by simp)
      · rw [if_neg h2] at h
        by_cases h3 : pixs.depth = 8 ∧ 256 < thresh
        · rw [if_pos h3] at h; exact absurd h (by simp)
        · rw [if_neg h3] at h
          simp only [hcm, Option.isSome_none, Bool.false_eq_true, if_false,
            false_and, Option.some.injEq] at h
          subst h
          have hfp := flattenPix_none pixs hcm
          by_cases hlt : pixs.pix y x % 2 ^ pixs.depth < thresh
          · simp [hfp, thresholdToBinaryLow, hlt]
          · simp [hfp, thresholdToBinaryLow, hlt]
  · intro pixs pixg out h y x
    unfold pixVarThresholdToBinary at h
    by_cases h1 : pixs.w ≠ pixg.w ∨ pixs.h ≠ pixg.h ∨ pixs.depth ≠ pixg.depth
    · rw [if_pos h1] at h; exact absurd h (by simp)
    · rw [if_neg h1] at h
      by_cases h2 : pixs.depth ≠ 8
      · rw [if_pos h2] at h; exact absurd h (by simp)
      · rw [if_neg h2] at h
        injection h with h
        subst h
        by_cases hlt : pixs.pix y x % 256 < pixg.pix y x % 256
        · simp [hlt]
        · simp [hlt]

theorem binarizer_polarity_witness :
    ((pixThresholdToBinary demoPix6 128).map
      (fun out => (out.pix 0 0, out.pix 0 1, out.pix 0 2, out.pix 0 3))).getD
      (9, 9, 9, 9) = (1, 1, 0, 0) ∧
    ((pixVarThresholdToBinary demoPix6 ⟨4, 1, 8, fun _ _ => 128, none⟩).map
      (fun out => (out.pix 0 0, out.pix 0 1, out.pix 0 2, out.pix 0 3))).getD
      (9, 9, 9, 9) = (1, 1, 0, 0) := by
  constructor
  · have hs : (pixThresholdToBinary demoPix6 128).isSome = true := rfl
    cases hrun : pixThresholdToBinary demoPix6 128 with
    | none => rw [hrun] at hs; exact absurd hs (by simp)
    | some out =>
      have hp := binarizer_polarity.1 demoPix6 128 out rfl hrun
      simp only [hrun, Option.map_some', Option.getD_some]
      rw [(hp 0 0).1, (hp 0 1).1, (hp 0 2).1, (hp 0 3).1]
      decide
  · have hs : (pixVarThresholdToBinary demoPix6 ⟨4, 1, 8, fun _ _ => 128, none⟩).isSome
        = true := rfl
    cases hrun : pixVarThresholdToBinary demoPix6 ⟨4, 1, 8, fun _ _ => 128, none⟩ with
    | none => rw [hrun] at hs; exact absurd hs (by simp)
    | some out =>
      have hp := binarizer_polarity.2 demoPix6 ⟨4, 1, 8, fun _ _ => 128, none⟩ out hrun
      simp only [hrun, Option.map_some', Option.getD_some]
      rw [(hp 0 0).1, (hp 0 1).1, (hp 0 2).1, (hp 0 3).1]
      decide

/-! ### Discriminant mask strictness -/

/-- C7: in pixGenerateMaskByDiscr32, for either distance metric, a mask
bit is set if and only if the pixel's distance to reference 1 is strictly
less than its distance to reference 2; a pixel exactly equidistant from
both references is not set. -/
theorem discr_mask_strict (pixs : Raster) (refval1 refval2 : ℕ)
    (distflag : DistFlag) (out : Raster)
    (h : pixGenerateMaskByDiscr32 pixs refval1 refval2 distflag = some out)
    (y x : ℕ) :
    out.pix y x =
      (if discrDist distflag refval1 (pixs.pix y x % 2 ^ 32) <
          discrDist distflag refval2 (pixs.pix y x % 2 ^ 32) then 1 else 0) ∧
    (out.pix y x = 1 ↔
      discrDist distflag refval1 (pixs.pix y x % 2 ^ 32) <
        discrDist distflag refval2 (pixs.pix y x % 2 ^ 32)) ∧
    (discrDist distflag refval1 (pixs.pix y x % 2 ^ 32) =
        discrDist distflag refval2 (pixs.pix y x % 2 ^ 32) → out.pix y x = 0) := by
  unfold pixGenerateMaskByDiscr32 at h
  by_cases h32 : pixs.depth ≠ 32
  · rw [if_pos h32] at h; exact absurd h (by simp)
  · rw [if_neg h32] at h
    injection h with h
    subst h
    by_cases hlt : discrDist distflag refval1 (pixs.pix y x % 2 ^ 32) <
        discrDist distflag refval2 (pixs.pix y x % 2 ^ 32)
    · exact ⟨by simp [hlt], by simp [hlt], fun heq => absurd hlt (by omega)⟩
    · exact ⟨by simp [hlt], by simp [hlt], fun _ => if_neg hlt⟩

theorem discr_mask_strict_witness :
    ((pixGenerateMaskByDiscr32 ⟨1, 1, 32, fun _ _ => 20 * 2 ^ 24, none⟩
      (10 * 2 ^ 24) (30 * 2 ^ 24) DistFlag.manhattan).map
        (fun out => out.pix 0 0)).getD 9 = 0 := by
  have hs : (pixGenerateMaskByDiscr32 ⟨1, 1, 32, fun _ _ => 20 * 2 ^ 24, none⟩
      (10 * 2 ^ 24) (30 * 2 ^ 24) DistFlag.manhattan).isSome = true := rfl
  cases hrun : pixGenerateMaskByDiscr32 ⟨1, 1, 32, fun _ _ => 20 * 2 ^ 24, none⟩
      (10 * 2 ^ 24) (30 * 2 ^ 24) DistFlag.manhattan with
  | none => rw [hrun] at hs; exact absurd hs (by simp)
  | some out =>
    have hp := discr_mask_strict ⟨1, 1, 32, fun _ _ => 20 * 2 ^ 24, none⟩
      (10 * 2 ^ 24) (30 * 2 ^ 24) DistFlag.manhattan out hrun 0 0
    simp only [hrun, Option.map_some', Option.getD_some]
    exact hp.2.2 (by decide)

/-! ### Colormapped input to pixGrayQuantFromCmap -/

/-- C9: calling pixGrayQuantFromCmap on a raster that already carries a
colormap is not a failure: it returns a copy of the input raster,
unmodified (same dimensions, depth, pixel data and colormap — the copy is
the same raster value), without applying any quantization. -/
theorem grayQuantFromCmap_cmapped_copy (pixs : Raster) (cmap : Option (List ℕ))
    (mindepth : ℕ) (h : pixs.cmap.isSome = true) :
    pixGrayQuantFromCmap pixs cmap mindepth = some pixs ∧
    pixGrayQuantFromCmap pixs cmap mindepth ≠ none := by
  unfold pixGrayQuantFromCmap
  rw [if_pos h]
  exact ⟨rfl, by simp⟩

theorem grayQuantFromCmap_cmapped_copy_witness :
    pixGrayQuantFromCmap ⟨1, 1, 8, fun _ _ => 5, some [0, 128, 255]⟩
      (some [7, 200]) 2 = some ⟨1, 1, 8, fun _ _ => 5, some [0, 128, 255]⟩ :=
  (grayQuantFromCmap_cmapped_copy ⟨1, 1, 8, fun _ _ => 5, some [0, 128, 255]⟩
    (some [7, 200]) 2 rfl).1
